import Mathlib

/-
  Verification development for the ATracker time-tracking engine
  (src/TimeTracker.1.py).  The Python classes `Task` and `TimeTrackerApp`
  are shallowly embedded: instants are seconds since the epoch (`Nat`),
  durations are signed seconds (`Int`, since Python `timedelta` is signed),
  calendar dates are day indices (`Nat`, one per 86400-second block, which
  models the time-zone-naive `datetime.now().date().isoformat()` keys), and
  Python dicts are insertion-ordered association lists.  Code that can raise
  an exception is embedded as an `Option`-valued function, `none` meaning
  the call raised.
-/

namespace TimeTracker

/-- Seconds per calendar day; day boundaries fall at multiples of this. -/
def secondsPerDay : Nat := 86400

/-- Model of `datetime.now().date().isoformat()`: the calendar-day index of
an instant, with naive fixed-length local days. -/
def dayOf (now : Nat) : Nat := now / secondsPerDay

/-- Read access `key in d` / `d[key]` on an insertion-ordered association
list (Python `dict` read). -/
def lookupD : List (Nat × Int) → Nat → Option Int
| [], _ => none
| (k, v) :: rest, key => if k = key then some v else lookupD rest key

/-- Write `d[key] = val` on an insertion-ordered association list (Python
`dict` write: replaces the value in place when the key exists, appends a new
entry otherwise). -/
def setD : List (Nat × Int) → Nat → Int → List (Nat × Int)
| [], key, val => [(key, val)]
| (k, v) :: rest, key, val =>
    if k = key then (k, val) :: rest else (k, v) :: setD rest key val

/-- State of a Python `Task` (TimeTracker.1.py lines 7-16). -/
structure Task where
  name : String
  project : Option String
  tags : List String
  life_area : Option String
  is_active : Bool
  start_time : Option Nat
  total_time : Int
  daily_time : List (Nat × Int)
  deriving DecidableEq

attribute [ext] Task

/-- `Task.record_daily_time` (lines 29-34): add `elapsed` to today's ledger
entry, creating it when absent.  `now` models the `datetime.now()` call that
the Python method makes internally. -/
def Task.record_daily_time (t : Task) (now : Nat) (elapsed : Int) : Task :=
  match lookupD t.daily_time (dayOf now) with
  | some v => { t with daily_time := setD t.daily_time (dayOf now) (v + elapsed) }
  | none => { t with daily_time := setD t.daily_time (dayOf now) elapsed }

/-- `Task.toggle_active` (lines 18-27).  One `now` stands for the (nearly
simultaneous) `datetime.now()` calls made inside the method. -/
def Task.toggle_active (t : Task) (now : Nat) : Task :=
  let t1 : Task := { t with is_active := !t.is_active }
  if t1.is_active then { t1 with start_time := some now }
  else
    match t1.start_time with
    | some st =>
        let elapsed : Int := (now : Int) - (st : Int)
        let t2 : Task := { t1 with total_time := t1.total_time + elapsed }
        let t3 := t2.record_daily_time now elapsed
        { t3 with start_time := none }
    | none => t1

/-- `Task.get_current_time` (lines 36-39). -/
def Task.get_current_time (t : Task) (now : Nat) : Int :=
  match t.is_active, t.start_time with
  | true, some st => t.total_time + ((now : Int) - (st : Int))
  | _, _ => t.total_time

/-- The guarded stop that `TimeTrackerApp.toggle_task` applies to the
previously active task (lines 339-340): the task's `toggle_active` runs only
when `is_active` is set, so an idle task is left untouched.  This is the
program's only stop entry point. -/
def Task.stopIfActive (t : Task) (now : Nat) : Task :=
  if t.is_active then t.toggle_active now else t

/-- Per-task body of `TimeTrackerApp.check_new_day` (lines 703-712).
Returns `none` when the Python would raise: `task.is_active` with
`task.start_time is None` makes `datetime.now() - None` a `TypeError`. -/
def checkNewDayTask (now : Nat) (t : Task) : Option Task :=
  if t.daily_time ≠ [] ∧ lookupD t.daily_time (dayOf now) = none then
    if t.is_active then
      match t.start_time with
      | none => none
      | some st =>
          let elapsed : Int := (now : Int) - (st : Int)
          let t1 : Task := { t with total_time := t.total_time + elapsed }
          let t2 := t1.record_daily_time now elapsed
          let t3 : Task := { t2 with start_time := some now }
          some { t3 with daily_time := setD t3.daily_time (dayOf now) 0 }
    else some { t with daily_time := setD t.daily_time (dayOf now) 0 }
  else some t

/-- Registry state of `TimeTrackerApp`: the task list, the three taxonomy
lists, and `active_task` as an index into the task list (`none` models the
Python attribute holding `None`; object identity becomes list position). -/
structure App where
  tasks : List Task
  projects : List String
  tags : List String
  life_areas : List String
  active_task : Option Nat
  deriving DecidableEq

/-- Exception-aware traversal: a Python `for` loop applying `f` to each
element, the whole computation aborting when any application raises. -/
def mapMO {α β : Type} (f : α → Option β) : List α → Option (List β)
| [] => some []
| x :: rest =>
    match f x, mapMO f rest with
    | some y, some rest' => some (y :: rest')
    | _, _ => none

/-- `TimeTrackerApp.check_new_day` (lines 703-712) over the whole registry. -/
def check_new_day (now : Nat) (a : App) : Option App :=
  match mapMO (checkNewDayTask now) a.tasks with
  | some ts => some { a with tasks := ts }
  | none => none

/-- The stop phase of `TimeTrackerApp.toggle_task` (lines 339-340): when
`active_task` references another task that is active, that task is toggled
off. -/
def stopPhase (now : Nat) (a : App) (i : Nat) : List Task :=
  match a.active_task with
  | none => a.tasks
  | some j =>
      if j = i then a.tasks
      else
        match a.tasks[j]? with
        | some tj =>
            if tj.is_active then a.tasks.set j (tj.toggle_active now)
            else a.tasks
        | none => a.tasks

/-- `TimeTrackerApp.toggle_task` (lines 338-345): stop the other active task
if any, toggle the target, and repoint `active_task`. -/
def toggle_task (now : Nat) (a : App) (i : Nat) : App :=
  let ts := stopPhase now a i
  match ts[i]? with
  | some ti =>
      let ti2 := ti.toggle_active now
      { a with
          tasks := ts.set i ti2
          active_task := if ti2.is_active then some i else none }
  | none => { a with tasks := ts }

/-- A sequence of `toggle_task` commands, each a `(now, index)` pair. -/
def applyToggles (cmds : List (Nat × Nat)) (a : App) : App :=
  cmds.foldl (fun s c => toggle_task c.1 s c.2) a

/-- Timestamp strings in the persisted record: `IsoStr.iso n` is the
canonical `isoformat` rendering of instant `n`, `emptyStr` the empty string
(falsy in Python), `junk` any string `datetime.fromisoformat` rejects. -/
inductive IsoStr
| iso (n : Nat)
| emptyStr
| junk
  deriving DecidableEq

/-- `datetime.fromisoformat`: succeeds exactly on canonical timestamps. -/
def isoParse : IsoStr → Option Nat
| .iso n => some n
| _ => none

/-- Python truthiness of a string: only the empty string is falsy. -/
def isoTruthy : IsoStr → Bool
| .emptyStr => false
| _ => true

/-- One entry of the persisted `"tasks"` array as `load_data` probes it: an
outer `none` means the key is absent, so `task_data[k]` raises `KeyError`
while `task_data.get(k, default)` falls back to its default. -/
structure RawTask where
  name : Option String
  project : Option (Option String)
  tags : Option (List String)
  life_area : Option (Option String)
  is_active : Option Bool
  start_time : Option (Option IsoStr)
  total_time : Option Int
  daily_time : Option (List (Nat × Int))
  deriving DecidableEq

/-- The persisted record shape (the dict that `save_data` writes and
`load_data` reads). -/
structure RawRecord where
  tasks : Option (List RawTask)
  projects : Option (List String)
  tags : Option (List String)
  life_areas : Option (List String)
  deriving DecidableEq

/-- Per-task encoding in `TimeTrackerApp.save_data` (lines 716-726): every
key is written; `start_time` is rendered by `isoformat` when present. -/
def Task.to_record (t : Task) : RawTask :=
  { name := some t.name
    project := some t.project
    tags := some t.tags
    life_area := some t.life_area
    is_active := some t.is_active
    start_time := some (t.start_time.map IsoStr.iso)
    total_time := some t.total_time
    daily_time := some t.daily_time }

/-- `TimeTrackerApp.save_data` (lines 714-734), minus the file write. -/
def save_data (a : App) : RawRecord :=
  { tasks := some (a.tasks.map Task.to_record)
    projects := some a.projects
    tags := some a.tags
    life_areas := some a.life_areas }

/-- Per-task decoding in `TimeTrackerApp.load_data` (lines 742-756): the
four direct key accesses may raise `KeyError`, `.get` supplies defaults,
`datetime.fromisoformat` raises on a non-empty unparseable string (an empty
string is falsy and yields `None` instead), and `Task.__init__` replaces a
falsy tags list by `[]`. -/
def loadRawTask (r : RawTask) : Option Task :=
  match r.name, r.project, r.tags, r.life_area with
  | some nm, some proj, some tgs, some la =>
      match (match r.start_time.getD none with
             | none => some none
             | some s =>
                 if isoTruthy s then (isoParse s).map some else some none) with
      | none => none
      | some st =>
          some { name := nm
                 project := proj
                 tags := if tgs.isEmpty then [] else tgs
                 life_area := la
                 is_active := r.is_active.getD false
                 start_time := st
                 total_time := r.total_time.getD 0
                 daily_time := r.daily_time.getD [] }
  | _, _, _, _ => none

/-- The `if task.is_active: self.active_task = task` assignments made as
`load_data`'s loop runs (lines 758-759): the last active task wins. -/
def computeActiveAux (i : Nat) (acc : Option Nat) : List Task → Option Nat
| [] => acc
| t :: rest => computeActiveAux (i + 1) (if t.is_active then some i else acc) rest

def computeActive (ts : List Task) (acc : Option Nat) : Option Nat :=
  computeActiveAux 0 acc ts

/-- `TimeTrackerApp.load_data` (lines 736-763), minus the file read; `a0` is
the pre-load app state (`__init__` reaches `load_data` with
`active_task = None`).  A result of `none` means the load raised and aborted
as a whole. -/
def load_data (r : RawRecord) (a0 : App) : Option App :=
  match mapMO loadRawTask (r.tasks.getD []) with
  | some ts =>
      some { tasks := ts
             projects := r.projects.getD []
             tags := r.tags.getD []
             life_areas := r.life_areas.getD []
             active_task := computeActive ts a0.active_task }
  | none => none

/-- `act` correctly names every active task: any active index is the one the
`active_task` attribute references.  This is the consistency property that
`TimeTrackerApp` maintains for its `active_task` attribute. -/
def InvP (act : Option Nat) (ts : List Task) : Prop :=
  ∀ k t, ts[k]? = some t → t.is_active = true → act = some k

def invBAux (act : Option Nat) : Nat → List Task → Bool
| _, [] => true
| i, t :: rest => (!t.is_active || act == some i) && invBAux act (i + 1) rest

/-- Decidable form of the registry consistency invariant `InvP`. -/
def App.invB (a : App) : Bool := invBAux a.active_task 0 a.tasks

/-- All durations stored in a task are non-negative. -/
def Task.Nonneg (t : Task) : Prop :=
  0 ≤ t.total_time ∧ ∀ p ∈ t.daily_time, 0 ≤ p.2

instance (t : Task) : Decidable t.Nonneg := by
  unfold Task.Nonneg
  infer_instance

/-! ### Lemmas about the ledger dictionary operations -/

theorem lookupD_setD_self (l : List (Nat × Int)) (k : Nat) (v : Int) :
    lookupD (setD l k v) k = some v := by
  induction l with
  | nil => simp [setD, lookupD]
  | cons p rest ih =>
      obtain ⟨a, b⟩ := p
      by_cases h : a = k
      · simp [setD, lookupD, h]
      · simp [setD, lookupD, h, ih]

theorem lookupD_setD_ne (l : List (Nat × Int)) (k k' : Nat) (v : Int)
    (h : k' ≠ k) : lookupD (setD l k v) k' = lookupD l k' := by
  have h' : ¬(k = k') := fun e => h (Eq.symm e)
  induction l with
  | nil => simp [setD, lookupD, h']
  | cons p rest ih =>
      obtain ⟨a, b⟩ := p
      by_cases ha : a = k
      · simp [setD, lookupD, ha, h']
      · simp [setD, lookupD, ha, ih]

theorem setD_of_lookup_none (l : List (Nat × Int)) (k : Nat) (v : Int)
    (h : lookupD l k = none) : setD l k v = l ++ [(k, v)] := by
  induction l with
  | nil => rfl
  | cons p rest ih =>
      obtain ⟨a, b⟩ := p
      by_cases ha : a = k
      · simp [lookupD, ha] at h
      · simp only [lookupD, if_neg ha] at h
        simp [setD, ha, ih h]

theorem lookupD_mem {l : List (Nat × Int)} {k : Nat} {v : Int}
    (h : lookupD l k = some v) : (k, v) ∈ l := by
  induction l with
  | nil => simp [lookupD] at h
  | cons p rest ih =>
      obtain ⟨a, b⟩ := p
      by_cases ha : a = k
      · simp [lookupD, ha] at h
        simp [ha, h]
      · simp only [lookupD, if_neg ha] at h
        exact List.mem_cons_of_mem _ (ih h)

theorem mem_setD {l : List (Nat × Int)} {k : Nat} {v : Int} {p : Nat × Int}
    (h : p ∈ setD l k v) : p ∈ l ∨ p = (k, v) := by
  induction l with
  | nil => simp [setD] at h; simp [h]
  | cons q rest ih =>
      obtain ⟨a, b⟩ := q
      by_cases ha : a = k
      · simp only [setD, if_pos ha] at h
        rcases List.mem_cons.mp h with h | h
        · right; rw [h, ha]
        · left; exact List.mem_cons_of_mem _ h
      · simp only [setD, if_neg ha] at h
        rcases List.mem_cons.mp h with h | h
        · left; simp [h]
        · rcases ih h with h' | h'
          · left; exact List.mem_cons_of_mem _ h'
          · right; exact h'

/-! ### Field characterizations of `record_daily_time` and `toggle_active` -/

@[simp] theorem record_name (t : Task) (now : Nat) (e : Int) :
    (t.record_daily_time now e).name = t.name := by
  cases h : lookupD t.daily_time (dayOf now) <;>
    simp [Task.record_daily_time, h]

@[simp] theorem record_project (t : Task) (now : Nat) (e : Int) :
    (t.record_daily_time now e).project = t.project := by
  cases h : lookupD t.daily_time (dayOf now) <;>
    simp [Task.record_daily_time, h]

@[simp] theorem record_tags (t : Task) (now : Nat) (e : Int) :
    (t.record_daily_time now e).tags = t.tags := by
  cases h : lookupD t.daily_time (dayOf now) <;>
    simp [Task.record_daily_time, h]

@[simp] theorem record_life_area (t : Task) (now : Nat) (e : Int) :
    (t.record_daily_time now e).life_area = t.life_area := by
  cases h : lookupD t.daily_time (dayOf now) <;>
    simp [Task.record_daily_time, h]

@[simp] theorem record_is_active (t : Task) (now : Nat) (e : Int) :
    (t.record_daily_time now e).is_active = t.is_active := by
  cases h : lookupD t.daily_time (dayOf now) <;>
    simp [Task.record_daily_time, h]

@[simp] theorem record_start_time (t : Task) (now : Nat) (e : Int) :
    (t.record_daily_time now e).start_time = t.start_time := by
  cases h : lookupD t.daily_time (dayOf now) <;>
    simp [Task.record_daily_time, h]

@[simp] theorem record_total_time (t : Task) (now : Nat) (e : Int) :
    (t.record_daily_time now e).total_time = t.total_time := by
  cases h : lookupD t.daily_time (dayOf now) <;>
    simp [Task.record_daily_time, h]

theorem record_daily (t : Task) (now : Nat) (e : Int) :
    (t.record_daily_time now e).daily_time =
      setD t.daily_time (dayOf now)
        ((lookupD t.daily_time (dayOf now)).getD 0 + e) := by
  cases h : lookupD t.daily_time (dayOf now) <;>
    simp [Task.record_daily_time, h]

/-- Stopping characterization: `toggle_active` on a running task flushes
`now - start_time` into the lifetime total and today's ledger entry, clears
the start instant and leaves the task idle. -/
theorem toggle_stop_eq (t : Task) (now st : Nat) (hrun : t.is_active = true)
    (hst : t.start_time = some st) :
    t.toggle_active now =
      { t with is_active := false, start_time := none,
               total_time := t.total_time + ((now : Int) - (st : Int)),
               daily_time := setD t.daily_time (dayOf now)
                 ((lookupD t.daily_time (dayOf now)).getD 0 +
                   ((now : Int) - (st : Int))) } := by
  have hd := record_daily
    { t with is_active := false, start_time := some st,
             total_time := t.total_time + ((now : Int) - (st : Int)) } now
    ((now : Int) - (st : Int))
  apply Task.ext <;> simp [Task.toggle_active, hrun, hst, hd]

/-- Starting characterization: `toggle_active` on an idle task records the
start instant and touches nothing else. -/
theorem toggle_start_eq (t : Task) (now : Nat) (hidle : t.is_active = false) :
    t.toggle_active now = { t with is_active := true, start_time := some now } := by
  simp [Task.toggle_active, hidle]

theorem toggle_is_active (t : Task) (now : Nat) :
    (t.toggle_active now).is_active = !t.is_active := by
  cases h : t.is_active with
  | false => simp [Task.toggle_active, h]
  | true => cases hs : t.start_time <;> simp [Task.toggle_active, h, hs]

/-! ### Claim C1 -/

/-- C1 (code bug): evaluating the day-boundary roll at the failing input — a
task that accumulated 3600 s on day 0, was restarted at 23:59:50 (instant
86390) and is rolled at 00:00:05 (instant 86405).  The code adds the full
15 s to `total_time`, records them under the new date and then immediately
overwrites that entry with zero, so the ledger gains only a zero entry for
day 1 while day 0's entry stays 3600: the elapsed time before the roll is
attributed to no date at all, not to the old date as the claim states. -/
theorem c1_rollover_eval :
    checkNewDayTask 86405
        ⟨"t", none, [], none, true, some 86390, 3600, [(0, 3600)]⟩ =
      some ⟨"t", none, [], none, true, some 86405, 3615, [(0, 3600), (1, 0)]⟩ := by
  decide

/-! ### Claim C5 -/

/-- C5: stopping a Running task computes `elapsed = now - start_instant`,
adds it to the lifetime total, records it in today's ledger entry (created
with that value if absent, added to it otherwise, all other days untouched),
clears the start instant and leaves the task Idle; the program's stop entry
point leaves an Idle task entirely unchanged. -/
theorem c5_stop_semantics (t : Task) (now st : Nat)
    (hrun : t.is_active = true) (hst : t.start_time = some st) :
    ((t.stopIfActive now).is_active = false ∧
     (t.stopIfActive now).start_time = none ∧
     (t.stopIfActive now).total_time =
       t.total_time + ((now : Int) - (st : Int)) ∧
     lookupD (t.stopIfActive now).daily_time (dayOf now) =
       some ((lookupD t.daily_time (dayOf now)).getD 0 +
         ((now : Int) - (st : Int))) ∧
     (∀ d : Nat, d ≠ dayOf now →
       lookupD (t.stopIfActive now).daily_time d = lookupD t.daily_time d)) ∧
    (∀ u : Task, u.is_active = false → u.stopIfActive now = u) := by
  have hs : t.stopIfActive now = t.toggle_active now := by
    simp [Task.stopIfActive, hrun]
  rw [hs, toggle_stop_eq t now st hrun hst]
  refine ⟨⟨rfl, rfl, rfl, ?_, ?_⟩, ?_⟩
  · exact lookupD_setD_self _ _ _
  · intro d hd
    exact lookupD_setD_ne _ _ _ _ hd
  · intro u hu
    simp [Task.stopIfActive, hu]

theorem c5_stop_witness :
    (⟨"t", none, [], none, true, some 10, 3, [(0, 2)]⟩ : Task).is_active = true ∧
    (⟨"t", none, [], none, true, some 10, 3, [(0, 2)]⟩ : Task).start_time = some 10 ∧
    (Task.stopIfActive ⟨"t", none, [], none, true, some 10, 3, [(0, 2)]⟩ 25).total_time =
      3 + ((25 : Int) - (10 : Int)) :=
  ⟨by decide, by decide,
    ((c5_stop_semantics ⟨"t", none, [], none, true, some 10, 3, [(0, 2)]⟩ 25 10
      (by decide) (by decide)).1).2.2.1⟩

/-! ### Claim C6 -/

/-- C6 (counterexample): an inactive task with a nonempty ledger is modified
by the day-boundary roll — a zero entry for the new date is created, so the
roll is not a no-op on inactive tasks. -/
theorem c6_counterexample :
    checkNewDayTask 86400 ⟨"t", none, [], none, false, none, 7, [(0, 5)]⟩ ≠
      some ⟨"t", none, [], none, false, none, 7, [(0, 5)]⟩ := by
  decide

/-- C6 (amended): for an inactive task the roll leaves `total_time`,
`start_time` and every existing ledger entry unchanged and synthesizes no
entries for skipped days, but it appends a zero-duration entry for the
current date whenever the ledger is nonempty and lacks one. -/
theorem c6_amended_inactive_roll (t : Task) (now : Nat)
    (hidle : t.is_active = false) :
    checkNewDayTask now t =
      some { t with daily_time :=
        if t.daily_time ≠ [] ∧ lookupD t.daily_time (dayOf now) = none
        then t.daily_time ++ [(dayOf now, 0)] else t.daily_time } := by
  by_cases hg : t.daily_time ≠ [] ∧ lookupD t.daily_time (dayOf now) = none
  · simp [checkNewDayTask, hg, hidle, setD_of_lookup_none _ _ _ hg.2]
  · simp [checkNewDayTask, hg]

theorem c6_amended_witness :
    (⟨"t", none, [], none, false, none, 7, [(0, 5)]⟩ : Task).is_active = false ∧
    checkNewDayTask 86400 ⟨"t", none, [], none, false, none, 7, [(0, 5)]⟩ =
      some ⟨"t", none, [], none, false, none, 7, [(0, 5), (1, 0)]⟩ :=
  ⟨by decide, by
    rw [c6_amended_inactive_roll ⟨"t", none, [], none, false, none, 7, [(0, 5)]⟩
      86400 (by decide)]
    decide⟩

/-! ### Claim C9 -/

/-- C9 (counterexample): elapsed durations are not clamped at zero — a fresh
task started at instant 100 and read back at instant 50 (host clock stepped
backwards) reports a negative current duration. -/
theorem c9_counterexample :
    (Task.toggle_active ⟨"t", none, [], none, false, none, 0, []⟩ 100).get_current_time
        50 < 0 := by
  decide

/-- C9 (amended): the code contains no clamp, but whenever the observation
instant is not before the recorded start instant (i.e. the host clock is
monotone) and all stored durations are non-negative, `toggle_active`
preserves non-negativity of the lifetime total and of every ledger entry,
and `get_current_time` returns a non-negative duration. -/
theorem c9_amended_nonneg (t : Task) (now : Nat) (hN : t.Nonneg)
    (hst : t.start_time.getD 0 ≤ now) :
    (t.toggle_active now).Nonneg ∧ 0 ≤ t.get_current_time now := by
  obtain ⟨hT, hD⟩ := hN
  constructor
  · cases hact : t.is_active with
    | false =>
        rw [toggle_start_eq t now hact]
        exact ⟨hT, hD⟩
    | true =>
        cases hs : t.start_time with
        | none =>
            have heq : t.toggle_active now = { t with is_active := false } := by
              simp [Task.toggle_active, hact, hs]
            rw [heq]
            exact ⟨hT, hD⟩
        | some st =>
            have hstn : (st : Int) ≤ (now : Int) := by
              rw [hs] at hst
              exact_mod_cast hst
            have he : 0 ≤ (now : Int) - (st : Int) := by linarith
            rw [toggle_stop_eq t now st hact hs]
            refine ⟨add_nonneg hT he, ?_⟩
            intro p hp
            rcases mem_setD hp with hmem | hpe
            · exact hD p hmem
            · rw [hpe]
              cases hl : lookupD t.daily_time (dayOf now) with
              | none => simpa using he
              | some v =>
                  have hv := hD _ (lookupD_mem hl)
                  simpa using add_nonneg hv he
  · cases hact : t.is_active with
    | false => simpa [Task.get_current_time, hact] using hT
    | true =>
        cases hs : t.start_time with
        | none => simpa [Task.get_current_time, hact, hs] using hT
        | some st =>
            have hstn : (st : Int) ≤ (now : Int) := by
              rw [hs] at hst
              exact_mod_cast hst
            have he : 0 ≤ (now : Int) - (st : Int) := by linarith
            simpa [Task.get_current_time, hact, hs] using add_nonneg hT he

theorem c9_amended_witness :
    Task.Nonneg ⟨"t", none, [], none, true, some 5, 3, [(0, 2)]⟩ ∧
    (⟨"t", none, [], none, true, some 5, 3, [(0, 2)]⟩ : Task).start_time.getD 0 ≤ 10 ∧
    0 ≤ Task.get_current_time ⟨"t", none, [], none, true, some 5, 3, [(0, 2)]⟩ 10 :=
  ⟨by decide, by decide,
    (c9_amended_nonneg ⟨"t", none, [], none, true, some 5, 3, [(0, 2)]⟩ 10
      (by decide) (by decide)).2⟩

/-! ### Claim C10 -/

/-- C10: a task whose daily ledger is empty is skipped entirely by the
day-boundary roll even while Running across midnight — its start instant,
lifetime total and ledger are untouched — and when such a task is later
stopped, its whole running interval lands on the stop day's ledger entry. -/
theorem c10_empty_ledger_roll (t : Task) (now stopNow st : Nat)
    (hd : t.daily_time = []) :
    checkNewDayTask now t = some t ∧
    (t.is_active = true → t.start_time = some st →
      (t.toggle_active stopNow).daily_time =
        [(dayOf stopNow, (stopNow : Int) - (st : Int))]) := by
  constructor
  · simp [checkNewDayTask, hd]
  · intro hact hs
    rw [toggle_stop_eq t stopNow st hact hs]
    simp [hd, lookupD, setD]

theorem c10_witness :
    (⟨"t", none, [], none, true, some 86390, 0, []⟩ : Task).daily_time = [] ∧
    checkNewDayTask 86405 ⟨"t", none, [], none, true, some 86390, 0, []⟩ =
      some ⟨"t", none, [], none, true, some 86390, 0, []⟩ :=
  ⟨by decide,
    (c10_empty_ledger_roll ⟨"t", none, [], none, true, some 86390, 0, []⟩
      86405 90000 86390 (by decide)).1⟩

/-! ### Lemmas about the exception-aware traversal -/

theorem mapMO_getElem {α β : Type} {f : α → Option β} {l : List α}
    {l' : List β} (h : mapMO f l = some l') (k : Nat) :
    (l[k]?).bind f = l'[k]? := by
  induction l generalizing l' k with
  | nil =>
      simp [mapMO] at h
      subst h
      simp
  | cons x xs ih =>
      cases hx : f x with
      | none => simp [mapMO, hx] at h
      | some y =>
          cases hxs : mapMO f xs with
          | none => simp [mapMO, hx, hxs] at h
          | some ys =>
              simp [mapMO, hx, hxs] at h
              subst h
              cases k with
              | zero => simp [hx]
              | succ k => simpa using ih hxs k

theorem mapMO_none_of_mem {α β : Type} {f : α → Option β} {l : List α}
    {x : α} (hmem : x ∈ l) (hx : f x = none) : mapMO f l = none := by
  induction l with
  | nil => cases hmem
  | cons y ys ih =>
      rcases List.mem_cons.mp hmem with h | h
      · subst h
        simp [mapMO, hx]
      · cases hy : f y <;> simp [mapMO, hy, ih h]

theorem mapMO_mem_some {α β : Type} {f : α → Option β} {l : List α}
    {l' : List β} (h : mapMO f l = some l') {x : α} (hmem : x ∈ l) :
    ∃ y, f x = some y := by
  cases hfx : f x with
  | none => rw [mapMO_none_of_mem hmem hfx] at h; cases h
  | some y => exact ⟨y, rfl⟩

/-! ### Claim C3 -/

theorem if_isEmpty_eq (l : List String) : (if l.isEmpty then [] else l) = l := by
  cases l <;> simp

theorem if_eq_nil_eq (l : List String) : (if l = [] then [] else l) = l := by
  cases l <;> simp

theorem load_save_task (t : Task) : loadRawTask (Task.to_record t) = some t := by
  obtain ⟨nm, pr, tg, la, ia, st, tt, dt⟩ := t
  cases st <;> cases tg <;>
    simp [loadRawTask, Task.to_record, isoTruthy, isoParse]

theorem mapMO_load_save (ts : List Task) :
    mapMO loadRawTask (ts.map Task.to_record) = some ts := by
  induction ts with
  | nil => rfl
  | cons t rest ih => simp [mapMO, load_save_task, ih]

/-- C3: decoding the encoded snapshot restores every task field (name,
project, tags, life_area, is_active, start_time, total_time and full daily
ledger) and the three taxonomy sets exactly, for every registry state,
including tasks with empty tag lists and null project/life_area. -/
theorem c3_roundtrip (a a0 : App) :
    load_data (save_data a) a0 =
      some { tasks := a.tasks, projects := a.projects, tags := a.tags,
             life_areas := a.life_areas,
             active_task := computeActive a.tasks a0.active_task } := by
  unfold load_data save_data
  simp [mapMO_load_save]

/-! ### Claim C4 -/

/-- C4 (counterexample): loading a record in which both tasks are marked
active yields a registry in which both tasks are still active — the loader
does not force any of them Idle. -/
theorem c4_counterexample :
    (load_data
        ⟨some [⟨some "a", some none, some [], some none, some true,
                some (some (IsoStr.iso 3)), some 1, some [(0, 1)]⟩,
               ⟨some "b", some none, some [], some none, some true,
                some (some (IsoStr.iso 3)), some 1, some [(0, 1)]⟩],
          some [], some [], some []⟩
        ⟨[], [], [], [], none⟩).map
      (fun a => (a.tasks.filter (fun t => t.is_active)).length) = some 2 := by
  decide

theorem loadRawTask_is_active {r : RawTask} {t : Task}
    (h : loadRawTask r = some t) : t.is_active = r.is_active.getD false := by
  rcases r with ⟨nm, pr, tg, la, ia, st, tt, dt⟩
  cases nm with
  | none => simp [loadRawTask] at h
  | some nm =>
  cases pr with
  | none => simp [loadRawTask] at h
  | some pr =>
  cases tg with
  | none => simp [loadRawTask] at h
  | some tg =>
  cases la with
  | none => simp [loadRawTask] at h
  | some la =>
  cases st with
  | none =>
      simp [loadRawTask] at h
      rw [← h]
  | some s =>
      cases s with
      | none =>
          simp [loadRawTask] at h
          rw [← h]
      | some i =>
          cases i with
          | iso n =>
              simp [loadRawTask, isoTruthy, isoParse] at h
              rw [← h]
          | emptyStr =>
              simp [loadRawTask, isoTruthy, isoParse] at h
              rw [← h]
          | junk =>
              simp [loadRawTask, isoTruthy, isoParse] at h

/-- C4 (amended): the loader accepts the stored `is_active` flags unchanged
— every task marked active in the record stays active in the loaded
registry, none is forced Idle — and the app's `active_task` reference ends
on the last active task encountered. -/
theorem c4_amended_load_keeps_flags (r : RawRecord) (a0 a' : App)
    (h : load_data r a0 = some a') :
    (∀ k : Nat, (a'.tasks[k]?).map Task.is_active =
      ((r.tasks.getD [])[k]?).map (fun rt => rt.is_active.getD false)) ∧
    a'.active_task = computeActive a'.tasks a0.active_task := by
  unfold load_data at h
  cases hm : mapMO loadRawTask (r.tasks.getD []) with
  | none => rw [hm] at h; cases h
  | some ts =>
      rw [hm] at h
      injection h with h
      subst h
      constructor
      · intro k
        have hp := mapMO_getElem hm k
        cases hk : (r.tasks.getD [])[k]? with
        | none =>
            rw [hk] at hp
            simp only [Option.bind] at hp
            simp [← hp, hk]
        | some rt =>
            rw [hk] at hp
            simp only [Option.bind] at hp
            obtain ⟨t, ht⟩ := mapMO_mem_some hm (List.getElem?_mem hk)
            rw [ht] at hp
            rw [← hp]
            simp [loadRawTask_is_active ht]
      · rfl

theorem c4_amended_witness :
    load_data
        ⟨some [⟨some "a", some none, some [], some none, some true,
                some (some (IsoStr.iso 3)), some 1, some [(0, 1)]⟩],
          some [], some [], some []⟩ ⟨[], [], [], [], none⟩ =
      some ⟨[⟨"a", none, [], none, true, some 3, 1, [(0, 1)]⟩],
            [], [], [], some 0⟩ ∧
    (⟨[⟨"a", none, [], none, true, some 3, 1, [(0, 1)]⟩],
       [], [], [], some 0⟩ : App).active_task =
      computeActive [⟨"a", none, [], none, true, some 3, 1, [(0, 1)]⟩] none :=
  ⟨by decide,
    (c4_amended_load_keeps_flags
      ⟨some [⟨some "a", some none, some [], some none, some true,
              some (some (IsoStr.iso 3)), some 1, some [(0, 1)]⟩],
        some [], some [], some []⟩
      ⟨[], [], [], [], none⟩
      ⟨[⟨"a", none, [], none, true, some 3, 1, [(0, 1)]⟩], [], [], [], some 0⟩
      (by decide)).2⟩

/-! ### Claim C7 -/

/-- A well-formed persisted task entry, used to exercise `load_data`. -/
def exGoodRaw : RawTask :=
  ⟨some "g", some none, some [], some none, some false, some none, some 2, some []⟩

/-- A malformed persisted task entry: the `"name"` key is missing, so
`task_data["name"]` raises `KeyError`. -/
def exBadRaw : RawTask :=
  ⟨none, some none, some [], some none, some false, some none, some 0, some []⟩

/-- A record holding one well-formed and one malformed task entry. -/
def exC7Record : RawRecord :=
  ⟨some [exGoodRaw, exBadRaw], some ["p"], some [], some []⟩

/-- C7 (counterexample): a record with one well-formed and one malformed
task entry does not load partially — the whole load aborts, loading neither
the well-formed task nor the taxonomy sets. -/
theorem c7_counterexample :
    load_data exC7Record ⟨[], [], [], [], none⟩ = none := by
  decide

/-- C7 (amended): one individually malformed task entry (missing field or
unparseable timestamp) makes `load_data` abort as a whole — the exception
propagates and nothing is loaded, rather than the bad entry being skipped. -/
theorem c7_amended_abort (r : RawRecord) (a0 : App) (rt : RawTask)
    (hmem : rt ∈ r.tasks.getD []) (hbad : loadRawTask rt = none) :
    load_data r a0 = none := by
  unfold load_data
  rw [mapMO_none_of_mem hmem hbad]

theorem c7_amended_witness :
    exBadRaw ∈ exC7Record.tasks.getD [] ∧
    loadRawTask exBadRaw = none ∧
    load_data exC7Record ⟨[], [], [], [], none⟩ = none :=
  ⟨by decide, by decide,
    c7_amended_abort exC7Record ⟨[], [], [], [], none⟩ exBadRaw
      (by decide) (by decide)⟩

/-! ### Claim C8 -/

theorem checkNewDayTask_idem (now : Nat) (t t' : Task)
    (h : checkNewDayTask now t = some t') :
    checkNewDayTask now t' = some t' := by
  by_cases hg : t.daily_time ≠ [] ∧ lookupD t.daily_time (dayOf now) = none
  · cases hact : t.is_active with
    | false =>
        simp only [checkNewDayTask, if_pos hg, hact, Bool.false_eq_true,
          if_false] at h
        injection h with h
        subst h
        simp [checkNewDayTask, lookupD_setD_self]
    | true =>
        cases hs : t.start_time with
        | none =>
            simp [checkNewDayTask, if_pos hg, hact, hs] at h
        | some st =>
            simp only [checkNewDayTask, if_pos hg, hact, hs, if_true] at h
            injection h with h
            subst h
            simp [checkNewDayTask, lookupD_setD_self]
  · unfold checkNewDayTask at h ⊢
    rw [if_neg hg] at h
    injection h with h
    subst h
    rw [if_neg hg]

theorem mapMO_idem {f : Task → Option Task}
    (hf : ∀ t t', f t = some t' → f t' = some t') :
    ∀ {l l' : List Task}, mapMO f l = some l' → mapMO f l' = some l' := by
  intro l
  induction l with
  | nil =>
      intro l' h
      simp [mapMO] at h
      subst h
      rfl
  | cons x xs ih =>
      intro l' h
      cases hx : f x with
      | none => simp [mapMO, hx] at h
      | some y =>
          cases hxs : mapMO f xs with
          | none => simp [mapMO, hx, hxs] at h
          | some ys =>
              simp [mapMO, hx, hxs] at h
              subst h
              simp [mapMO, hf x y hx, ih hxs]

/-- C8: the day-boundary roll is idempotent — when `check_new_day` succeeds,
running it again at the same instant returns the registry unchanged (every
task's ledger, lifetime total and start instant included). -/
theorem c8_roll_idempotent (now : Nat) (a a' : App)
    (h : check_new_day now a = some a') :
    check_new_day now a' = some a' := by
  unfold check_new_day at h ⊢
  cases hm : mapMO (checkNewDayTask now) a.tasks with
  | none => rw [hm] at h; cases h
  | some ts =>
      rw [hm] at h
      injection h with h
      subst h
      have h2 := mapMO_idem (checkNewDayTask_idem now) hm
      simp [h2]

theorem c8_roll_idempotent_witness :
    check_new_day 86405
        ⟨[⟨"a", none, [], none, true, some 86390, 0, [(0, 10)]⟩,
          ⟨"b", none, [], none, false, none, 4, [(0, 4)]⟩,
          ⟨"c", none, [], none, false, none, 0, []⟩], [], [], [], some 0⟩ =
      some ⟨[⟨"a", none, [], none, true, some 86405, 15, [(0, 10), (1, 0)]⟩,
             ⟨"b", none, [], none, false, none, 4, [(0, 4), (1, 0)]⟩,
             ⟨"c", none, [], none, false, none, 0, []⟩], [], [], [], some 0⟩ ∧
    check_new_day 86405
        ⟨[⟨"a", none, [], none, true, some 86405, 15, [(0, 10), (1, 0)]⟩,
          ⟨"b", none, [], none, false, none, 4, [(0, 4), (1, 0)]⟩,
          ⟨"c", none, [], none, false, none, 0, []⟩], [], [], [], some 0⟩ =
      some ⟨[⟨"a", none, [], none, true, some 86405, 15, [(0, 10), (1, 0)]⟩,
             ⟨"b", none, [], none, false, none, 4, [(0, 4), (1, 0)]⟩,
             ⟨"c", none, [], none, false, none, 0, []⟩], [], [], [], some 0⟩ :=
  ⟨by decide,
    c8_roll_idempotent 86405
      ⟨[⟨"a", none, [], none, true, some 86390, 0, [(0, 10)]⟩,
        ⟨"b", none, [], none, false, none, 4, [(0, 4)]⟩,
        ⟨"c", none, [], none, false, none, 0, []⟩], [], [], [], some 0⟩
      ⟨[⟨"a", none, [], none, true, some 86405, 15, [(0, 10), (1, 0)]⟩,
        ⟨"b", none, [], none, false, none, 4, [(0, 4), (1, 0)]⟩,
        ⟨"c", none, [], none, false, none, 0, []⟩], [], [], [], some 0⟩
      (by decide)⟩

/-! ### Claim C2 -/

theorem invBAux_iff (act : Option Nat) (i : Nat) (ts : List Task) :
    invBAux act i ts = true ↔
      ∀ (k : Nat) (t : Task), ts[k]? = some t → t.is_active = true →
        act = some (i + k) := by
  induction ts generalizing i with
  | nil => simp [invBAux]
  | cons hd tl ih =>
      simp only [invBAux, Bool.and_eq_true, Bool.or_eq_true,
        Bool.not_eq_true', beq_iff_eq]
      constructor
      · rintro ⟨h1, h2⟩ k t hk ha
        cases k with
        | zero =>
            simp only [List.getElem?_cons_zero, Option.some.injEq] at hk
            subst hk
            rcases h1 with h1 | h1
            · rw [ha] at h1; cases h1
            · simpa using h1
        | succ k =>
            simp only [List.getElem?_cons_succ] at hk
            have hrec := (ih (i + 1)).mp h2 k t hk ha
            rw [hrec]
            congr 1
            omega
      · intro h
        constructor
        · cases hhd : hd.is_active with
          | false => left; rfl
          | true =>
              right
              have h0 := h 0 hd (by simp) hhd
              simpa using h0
        · refine (ih (i + 1)).mpr ?_
          intro k t hk ha
          have hs := h (k + 1) t (by simpa using hk) ha
          rw [hs]
          congr 1
          omega

theorem invB_iff (a : App) : a.invB = true ↔ InvP a.active_task a.tasks := by
  unfold App.invB InvP
  rw [invBAux_iff]
  constructor
  · intro h k t hk ha
    simpa using h k t hk ha
  · intro h k t hk ha
    simpa using h k t hk ha

/-- Shift of the active index when dropping the head of the task list. -/
def predO : Option Nat → Option Nat
| some (k + 1) => some k
| _ => none

theorem invP_tail {act : Option Nat} {hd : Task} {tl : List Task}
    (h : InvP act (hd :: tl)) : InvP (predO act) tl := by
  intro k t hk ha
  have hs := h (k + 1) t (by simpa using hk) ha
  rw [hs]
  rfl

theorem invP_filter_length {act : Option Nat} {ts : List Task}
    (h : InvP act ts) :
    (ts.filter (fun t => t.is_active)).length ≤ 1 := by
  induction ts generalizing act with
  | nil => simp
  | cons hd tl ih =>
      cases hhd : hd.is_active with
      | false =>
          simp only [List.filter_cons, hhd, Bool.false_eq_true, if_false]
          exact ih (invP_tail h)
      | true =>
          have h0 : act = some 0 := h 0 hd (by simp) hhd
          have hfil : tl.filter (fun t => t.is_active) = [] := by
            refine List.filter_eq_nil_iff.mpr ?_
            intro u hu hp
            obtain ⟨k, hk⟩ := List.getElem?_of_mem hu
            have hs := h (k + 1) u (by simpa using hk) (by simpa using hp)
            rw [h0] at hs
            injection hs with hs
            omega
          simp [List.filter_cons, hhd, hfil]

theorem stopPhase_active_imp (now : Nat) (a : App) (i : Nat)
    (h : InvP a.active_task a.tasks) :
    ∀ (k : Nat) (t : Task), (stopPhase now a i)[k]? = some t →
      t.is_active = true → k = i := by
  intro k t hk ha
  unfold stopPhase at hk
  cases hact : a.active_task with
  | none =>
      simp only [hact] at hk
      have hc := h k t hk ha
      rw [hact] at hc
      cases hc
  | some j =>
      simp only [hact] at hk
      by_cases hji : j = i
      · rw [if_pos hji] at hk
        have hc := h k t hk ha
        rw [hact] at hc
        injection hc with hc
        omega
      · rw [if_neg hji] at hk
        cases hgj : a.tasks[j]? with
        | none =>
            simp only [hgj] at hk
            have hc := h k t hk ha
            rw [hact] at hc
            injection hc with hc
            subst hc
            rw [hgj] at hk
            cases hk
        | some tj =>
            simp only [hgj] at hk
            cases htj : tj.is_active with
            | false =>
                rw [htj] at hk
                simp only [Bool.false_eq_true, if_false] at hk
                have hc := h k t hk ha
                rw [hact] at hc
                injection hc with hc
                subst hc
                rw [hgj] at hk
                injection hk with hk
                subst hk
                rw [htj] at ha
                cases ha
            | true =>
                rw [htj] at hk
                simp only [if_true] at hk
                by_cases hkj : k = j
                · subst hkj
                  have hlen : k < a.tasks.length := (List.getElem?_eq_some.mp hgj).1
                  rw [List.getElem?_set_self hlen] at hk
                  injection hk with hk
                  subst hk
                  rw [toggle_is_active, htj] at ha
                  cases ha
                · rw [List.getElem?_set_ne (fun e => hkj e.symm)] at hk
                  have hc := h k t hk ha
                  rw [hact] at hc
                  injection hc with hc
                  exact absurd hc.symm hkj

theorem toggle_task_invP (now : Nat) (a : App) (i : Nat)
    (h : InvP a.active_task a.tasks) :
    InvP (toggle_task now a i).active_task (toggle_task now a i).tasks := by
  have honly := stopPhase_active_imp now a i h
  unfold toggle_task
  cases hti : (stopPhase now a i)[i]? with
  | none =>
      simp only [hti]
      intro k t hk ha
      have hki := honly k t hk ha
      subst hki
      rw [hti] at hk
      cases hk
  | some ti =>
      simp only [hti]
      intro k t hk ha
      by_cases hki : k = i
      · subst hki
        have hlen : k < (stopPhase now a k).length :=
          (List.getElem?_eq_some.mp hti).1
        rw [List.getElem?_set_self hlen] at hk
        injection hk with hk
        subst hk
        simp [ha]
      · rw [List.getElem?_set_ne (fun e => hki e.symm)] at hk
        exact absurd (honly k t hk ha) hki

theorem applyToggles_invP (cmds : List (Nat × Nat)) (a : App)
    (h : InvP a.active_task a.tasks) :
    InvP (applyToggles cmds a).active_task (applyToggles cmds a).tasks := by
  induction cmds generalizing a with
  | nil => exact h
  | cons c rest ih =>
      exact ih (toggle_task c.1 a c.2) (toggle_task_invP c.1 a c.2 h)

/-- C2 (counterexample): "at most one task active" alone is not preserved by
`toggle_task`.  In a registry holding one active and one idle task but with
`active_task = None` — a state with at most one active task, reachable after
loading a corrupt record with several active tasks and toggling the
referenced one off — toggling the idle task skips the stop guard (line 339:
`self.active_task` is falsy), starts the target without stopping the active
task, and leaves two tasks active. -/
theorem c2_counterexample :
    (((⟨[⟨"a", none, [], none, true, some 10, 0, []⟩,
         ⟨"b", none, [], none, false, none, 0, []⟩],
        [], [], [], none⟩ : App).tasks.filter
        (fun t => t.is_active)).length ≤ 1) ∧
    ((toggle_task 100
        ⟨[⟨"a", none, [], none, true, some 10, 0, []⟩,
          ⟨"b", none, [], none, false, none, 0, []⟩],
         [], [], [], none⟩ 1).tasks[0]? =
      some ⟨"a", none, [], none, true, some 10, 0, []⟩) ∧
    (((toggle_task 100
        ⟨[⟨"a", none, [], none, true, some 10, 0, []⟩,
          ⟨"b", none, [], none, false, none, 0, []⟩],
         [], [], [], none⟩ 1).tasks.filter
        (fun t => t.is_active)).length = 2) := by
  decide

/-- C2 (amended): the single-active property holds from any registry state
whose `active_task` reference is consistent — it references every active
task, the state `__init__`, loads of at-most-one-active records and every
`toggle_task` call produce (it implies at most one task is active).  From
such a state, every sequence of `toggle_task` commands leaves at most one
task active, and toggling an idle task while another task is active first
stops that active task and then starts the target.  Starting instead from a
state where a task is active but `active_task` does not reference it, the
code starts a second task without stopping the first (see the
counterexample). -/
theorem c2_amended_single_active (a : App) (h : a.invB = true)
    (cmds : List (Nat × Nat)) :
    ((applyToggles cmds a).tasks.filter (fun t => t.is_active)).length ≤ 1 ∧
    (∀ (now i j : Nat) (ti tj : Task),
      a.tasks[i]? = some ti → ti.is_active = false →
      a.tasks[j]? = some tj → tj.is_active = true → j ≠ i →
      (toggle_task now a i).tasks[j]? = some (tj.toggle_active now) ∧
      (tj.toggle_active now).is_active = false ∧
      (toggle_task now a i).tasks[i]? = some (ti.toggle_active now) ∧
      (ti.toggle_active now).is_active = true) := by
  have hInv : InvP a.active_task a.tasks := (invB_iff a).mp h
  constructor
  · exact invP_filter_length (applyToggles_invP cmds a hInv)
  · intro now i j ti tj hti hidle htj hactj hji
    have hact : a.active_task = some j := hInv j tj htj hactj
    have hsp : stopPhase now a i = a.tasks.set j (tj.toggle_active now) := by
      simp [stopPhase, hact, hji, htj, hactj]
    have hlenj : j < a.tasks.length := (List.getElem?_eq_some.mp htj).1
    have hleni : i < a.tasks.length := (List.getElem?_eq_some.mp hti).1
    have hspi : (stopPhase now a i)[i]? = some ti := by
      rw [hsp, List.getElem?_set_ne hji, hti]
    unfold toggle_task
    simp only [hspi]
    refine ⟨?_, ?_, ?_, ?_⟩
    · rw [List.getElem?_set_ne (fun e => hji e.symm), hsp,
        List.getElem?_set_self hlenj]
    · rw [toggle_is_active, hactj]
      rfl
    · have hleni' : i < (stopPhase now a i).length := by
        rw [hsp, List.length_set]
        exact hleni
      rw [List.getElem?_set_self hleni']
    · rw [toggle_is_active, hidle]
      rfl

theorem c2_amended_witness :
    App.invB ⟨[⟨"a", none, [], none, true, some 10, 0, []⟩,
               ⟨"b", none, [], none, false, none, 0, []⟩],
              [], [], [], some 0⟩ = true ∧
    ((applyToggles [(100, 1), (200, 0)]
        ⟨[⟨"a", none, [], none, true, some 10, 0, []⟩,
          ⟨"b", none, [], none, false, none, 0, []⟩],
         [], [], [], some 0⟩).tasks.filter (fun t => t.is_active)).length ≤ 1 :=
  ⟨by decide,
    (c2_amended_single_active
      ⟨[⟨"a", none, [], none, true, some 10, 0, []⟩,
        ⟨"b", none, [], none, false, none, 0, []⟩],
       [], [], [], some 0⟩
      (by decide) [(100, 1), (200, 0)]).1⟩

end TimeTracker
